import Mathlib

/-!
# Verification of the AWS SSO access-analysis engine (report.sh repository)

Shallow embedding of the analysis code in `generate_report.py`, `toxic.py`
and `build_report.py`, together with theorems settling the specification
claims about environment classification, access-level classification,
cross-environment analysis, extensive-access analysis, access-overlap
analysis, access resolution and error handling.

Python strings are embedded as Lean `String`; the Python substring test
`needle in haystack` is embedded as list-infix containment on the
character lists; Python `str.lower()` is embedded as character-wise
`Char.toLower`; Python sets whose elements are inserted one by one are
embedded as duplicate-free lists in insertion order; Python floats in the
analysis (the literal `0.8` and `round(x, 1)`) are embedded as exact
rationals; Python exceptions are embedded with `Except String`.
-/

namespace ReportSh

/-- Embedding of Python `s.lower()` as a character list
(the analysis code only ever lowercases before substring tests). -/
def lower (s : String) : List Char := s.toList.map Char.toLower

/-- Embedding of the Python substring test `needle in hay`
(`hay` given as an already-lowercased character list). -/
def containsLC (needle : String) (hay : List Char) : Prop :=
  needle.toList <:+: hay

instance (needle : String) (hay : List Char) : Decidable (containsLC needle hay) :=
  List.decidableInfix _ _

/-- The three-way environment classification of `generate_report.py`. -/
inductive Environment where
  | Production
  | NonProduction
  | Other
deriving DecidableEq, Repr

/-- Embedding of `determine_environment` (generate_report.py lines 105-113):
`'Production'` if the lowercased account name contains `'prod'` or
`'production'`, else `'Non-Production'` if it contains one of `'dev'`,
`'development'`, `'test'`, `'stage'`, `'staging'`, else `'Other'`. -/
def determine_environment (account_name : String) : Environment :=
  let account_lower := lower account_name
  if containsLC "prod" account_lower ∨ containsLC "production" account_lower then
    .Production
  else if containsLC "dev" account_lower ∨ containsLC "development" account_lower ∨
      containsLC "test" account_lower ∨ containsLC "stage" account_lower ∨
      containsLC "staging" account_lower then
    .NonProduction
  else
    .Other

/-- The two-way account classification used by `analyze_toxic_combinations`
(toxic.py lines 103-113): every account lands in the production or the
non-production list; there is no third class. -/
inductive ToxicEnv where
  | prod
  | nonprod
deriving DecidableEq, Repr

/-- The non-production test of toxic.py line 108: the lowercased account
name contains one of `'non-prod'`, `'nonprod'`, `'non prod'`, `'-dev'`,
`'stage'`, `'test'`. -/
def toxicNonprodPattern (account_name : String) : Prop :=
  containsLC "non-prod" (lower account_name) ∨
  containsLC "nonprod" (lower account_name) ∨
  containsLC "non prod" (lower account_name) ∨
  containsLC "-dev" (lower account_name) ∨
  containsLC "stage" (lower account_name) ∨
  containsLC "test" (lower account_name)

instance (account_name : String) : Decidable (toxicNonprodPattern account_name) := by
  unfold toxicNonprodPattern; infer_instance

/-- Embedding of the per-account branch of toxic.py lines 106-113:
non-production patterns are tested first, then `'prod'`, and an account
matching neither is appended to the non-production list. -/
def toxicClassify (account_name : String) : ToxicEnv :=
  if toxicNonprodPattern account_name then .nonprod
  else if containsLC "prod" (lower account_name) then .prod
  else .nonprod

/-- The `prod_accounts` list built by the loop of toxic.py lines 103-113
(the loop appends in order, so it equals a filter of the account list). -/
def prodAccounts (all_accounts : List String) : List String :=
  all_accounts.filter fun a => toxicClassify a = ToxicEnv.prod

/-- The `nonprod_accounts` list built by the same loop. -/
def nonprodAccounts (all_accounts : List String) : List String :=
  all_accounts.filter fun a => toxicClassify a = ToxicEnv.nonprod

/-- Read-only / read-write access-level classification. -/
inductive PermType where
  | ro
  | rw
deriving DecidableEq, Repr

/-- Embedding of `get_permission_type` (toxic.py lines 61-67):
ro_patterns = `['readonly', 'read-only', 'viewer', 'view-only', 'read_only']`,
any substring match gives `'ro'`, default `'rw'`. -/
def get_permission_type (permission_name : String) : PermType :=
  let lower_name := lower permission_name
  if containsLC "readonly" lower_name ∨ containsLC "read-only" lower_name ∨
      containsLC "viewer" lower_name ∨ containsLC "view-only" lower_name ∨
      containsLC "read_only" lower_name then
    .ro
  else
    .rw

/-- One entry of the `access_details` list that the Gremlin projection of
toxic.py lines 121-131 produces per user: folded lists of group names,
account names and permission-set names (the projected dicts always carry
these three keys, so the `if not access: continue` guard of line 147 never
fires and is not represented). -/
structure AccessDetail where
  group : List String
  account : List String
  permission : List String
deriving DecidableEq, Repr

/-- Embedding of Python `set.add` followed by a later `list(...)`:
a duplicate-free list in insertion order. -/
def insertNew (l : List String) (x : String) : List String :=
  if x ∈ l then l else l ++ [x]

/-- The inline access-type test of toxic.py lines 159-160 (and identically
lines 248-249): `'ro'` if any permission name contains `'readonly'`,
`'read-only'` or `'-ro'` after lowercasing, else `'rw'`. -/
def accessType (permission_names : List String) : PermType :=
  if permission_names.any (fun p =>
      decide (containsLC "readonly" (lower p)) ||
      decide (containsLC "read-only" (lower p)) ||
      decide (containsLC "-ro" (lower p))) then
    .ro
  else
    .rw

/-- The per-user mutable state of the cross-environment loop of toxic.py
lines 142-165: the four access buckets and the group set. -/
structure CEState where
  prodRo : List String
  prodRw : List String
  nonRo : List String
  nonRw : List String
  groups : List String
deriving DecidableEq, Repr

/-- One finding of `findings['cross_env']` (toxic.py lines 168-175). -/
structure CrossEnvFinding where
  user : String
  prod_access_ro : List String
  prod_access_rw : List String
  nonprod_access_ro : List String
  nonprod_access_rw : List String
  groups : List String
deriving DecidableEq, Repr

/-- The account-bucketing step of toxic.py lines 157-165: an account in
`prod_accounts` goes to the production bucket of its access type, else an
account in `nonprod_accounts` goes to the non-production bucket. -/
def ceAddAccount (prodA nonA : List String) (t : PermType) (st : CEState)
    (account_name : String) : CEState :=
  if account_name ∈ prodA then
    match t with
    | .ro => { st with prodRo := insertNew st.prodRo account_name }
    | .rw => { st with prodRw := insertNew st.prodRw account_name }
  else if account_name ∈ nonA then
    match t with
    | .ro => { st with nonRo := insertNew st.nonRo account_name }
    | .rw => { st with nonRw := insertNew st.nonRw account_name }
  else
    st

/-- One iteration of the `for access in user['access_details']` loop
(toxic.py lines 146-165): collect group names, then bucket each account
name using the access type computed from the entry's permission names. -/
def ceStep (prodA nonA : List String) (st : CEState) (d : AccessDetail) : CEState :=
  let st := { st with groups := d.group.foldl insertNew st.groups }
  d.account.foldl (ceAddAccount prodA nonA (accessType d.permission)) st

/-- Embedding of the per-user body of toxic.py lines 140-175: fold the
access details, then emit a finding exactly when both a production bucket
and a non-production bucket are non-empty (line 167). -/
def crossEnvUser (prodA nonA : List String) (user : String)
    (details : List AccessDetail) : Option CrossEnvFinding :=
  let st := details.foldl (ceStep prodA nonA) ⟨[], [], [], [], []⟩
  if (st.prodRo ≠ [] ∨ st.prodRw ≠ []) ∧ (st.nonRo ≠ [] ∨ st.nonRw ≠ []) then
    some ⟨user, st.prodRo, st.prodRw, st.nonRo, st.nonRw, st.groups⟩
  else
    none

/-- Python's banker's rounding of a rational to the nearest integer
(ties go to the even integer), as used by `round(x, 1)`. -/
def roundHalfEven (x : ℚ) : ℤ :=
  let f := ⌊x⌋
  let r := x - f
  if r < 1 / 2 then f
  else if 1 / 2 < r then f + 1
  else if f % 2 = 0 then f else f + 1

/-- Embedding of Python `round(x, 1)` on exact rationals. -/
def pyRound1 (x : ℚ) : ℚ := (roundHalfEven (x * 10) : ℚ) / 10

/-- One entry of the `user_account_access` projection of toxic.py
lines 231-238: an account name with the folded permission names. -/
structure AccountAccess where
  account : String
  permission_info : List String
deriving DecidableEq, Repr

/-- One finding of `findings['extensive_access']` (toxic.py lines 254-260). -/
structure ExtensiveFinding where
  user : String
  ro_accounts : List String
  rw_accounts : List String
  total_accounts : ℕ
  access_percentage : ℚ
deriving DecidableEq, Repr

/-- One iteration of the loop of toxic.py lines 244-250: add the account
to the `'ro'` or `'rw'` set according to the permission names. -/
def extensiveAccum (st : List String × List String) (access : AccountAccess) :
    List String × List String :=
  match accessType access.permission_info with
  | .ro => (insertNew st.1 access.account, st.2)
  | .rw => (st.1, insertNew st.2 access.account)

/-- Embedding of the per-user body of toxic.py lines 241-260: the user is
reported when the distinct-account total strictly exceeds
`accounts_count * 0.8` (line 229/253; the float literal `0.8` is embedded
as the exact rational 4/5), with the coverage percentage of line 259. -/
def extensiveUser (accounts_count : ℕ) (user : String)
    (details : List AccountAccess) : Option ExtensiveFinding :=
  let st := details.foldl extensiveAccum ([], [])
  let total_accounts := (st.2.foldl insertNew st.1).length
  if (total_accounts : ℚ) > (accounts_count : ℚ) * (4 / 5) then
    some ⟨user, st.1, st.2, accounts_count,
      pyRound1 ((total_accounts : ℚ) / (accounts_count : ℚ) * 100)⟩
  else
    none

/-- Order-preserving deduplication keeping the first occurrence of each
element, the semantics of `pandas.DataFrame.drop_duplicates`. -/
def dedupFirstAux [DecidableEq α] (seen : List α) : List α → List α
  | [] => []
  | a :: l => if a ∈ seen then dedupFirstAux seen l else a :: dedupFirstAux (a :: seen) l

/-- `drop_duplicates` on a list: keep the first occurrence of each element. -/
def dedupFirst [DecidableEq α] (l : List α) : List α := dedupFirstAux [] l

/-- One raw item of the Gremlin projection of build_report.py lines 71-78:
account name, permission-set ARN and group name. -/
structure RawAccess where
  account : String
  permission_set : String
  group : String
deriving DecidableEq, Repr

/-- One row of the DataFrame built by `get_access_data`
(build_report.py lines 89-97). -/
structure ReportRow where
  account : String
  permission_set : String
  permission_set_name : String
  group : String
  environment : Environment
deriving DecidableEq, Repr

/-- Splitting a character list at `'/'`, the embedding of
Python `arn.split('/')`. -/
def splitSlash : List Char → List (List Char)
  | [] => [[]]
  | c :: cs =>
    match splitSlash cs with
    | [] => [[]]
    | w :: ws => if c = '/' then [] :: w :: ws else (c :: w) :: ws

/-- The character recursion behind Python `str.title()`: an alphabetic
character is uppercased after a non-alphabetic position and lowercased
after an alphabetic one. -/
def titleGo : Bool → List Char → List Char
  | _, [] => []
  | prevAlpha, c :: cs =>
    (if c.isAlpha then (if prevAlpha then c.toLower else c.toUpper) else c) ::
      titleGo c.isAlpha cs

/-- Embedding of `clean_permission_set_name` (build_report.py lines 62-66):
take the segment after the last `'/'`, strip a leading `'ps-'`, replace
`'-'` by `' '` and title-case the result. -/
def clean_permission_set_name (arn : String) : String :=
  let name := (splitSlash arn.toList).getLastD []
  let name :=
    match name with
    | 'p' :: 's' :: '-' :: rest => rest
    | other => other
  String.mk (titleGo false (name.map fun c => if c = '-' then ' ' else c))

/-- The inline environment classification of build_report.py lines 94-96:
`'Production'` if the lowercased account name contains `'prod'`, else
`'Non-Production'` if it contains `'dev'`, `'test'` or `'stage'`,
else `'Other'`. -/
def rowEnvironment (account : String) : Environment :=
  if containsLC "prod" (lower account) then .Production
  else if containsLC "dev" (lower account) ∨ containsLC "test" (lower account) ∨
      containsLC "stage" (lower account) then .NonProduction
  else .Other

/-- The row construction of build_report.py lines 89-97. -/
def toReportRow (a : RawAccess) : ReportRow :=
  ⟨a.account, a.permission_set, clean_permission_set_name a.permission_set,
    a.group, rowEnvironment a.account⟩

/-- The row list of `get_access_data` (build_report.py lines 68-106): on a
successful query, the projected rows deduplicated keeping first
occurrences; an empty query result gives the empty frame (line 82-85). -/
def get_access_rows (query : Except String (List RawAccess)) : List ReportRow :=
  match query with
  | .ok access_matrix => dedupFirst (access_matrix.map toReportRow)
  | .error _ => []

/-- Embedding of `get_access_data` with its error channel made explicit
(build_report.py lines 68-106): the `except` handler of lines 103-106
catches any graph error and returns an empty DataFrame, so the function
always returns a plain value and never propagates an error. -/
def get_access_data (query : Except String (List RawAccess)) :
    Except String (List ReportRow) :=
  Except.ok (get_access_rows query)

/-- Embedding of `get_org_access_data` (build_report.py lines 108-127):
`fetch` is the per-user graph query; a failing user-list query is caught
by the handler of lines 124-127 and yields an empty frame. -/
def get_org_access_data (usersQuery : Except String (List String))
    (fetch : String → Except String (List RawAccess)) :
    Except String (List (String × ReportRow)) :=
  match usersQuery with
  | .ok users =>
      Except.ok (users.flatMap fun u => (get_access_rows (fetch u)).map fun r => (u, r))
  | .error _ => Except.ok []

/-- Group membership as read off the user-group crosstab of
`analyze_access_overlap` (build_report.py line 133/136): the crosstab cell
is positive exactly when the row (username, group) occurs in the frame. -/
def memberOf (df : List (String × String)) (u g : String) : Prop := (u, g) ∈ df

instance (df : List (String × String)) (u g : String) : Decidable (memberOf df u g) :=
  inferInstanceAs (Decidable ((u, g) ∈ df))

/-- The distinct column labels of the crosstab (the groups occurring in the
frame; pandas sorts them, which no counting below depends on). -/
def dfGroups (df : List (String × String)) : List String := dedupFirst (df.map Prod.snd)

/-- The distinct row labels of the crosstab (the usernames occurring in the
frame; pandas sorts them, which no counting below depends on). -/
def dfUsers (df : List (String × String)) : List String := dedupFirst (df.map Prod.fst)

/-- The overlap matrix of `analyze_access_overlap` (build_report.py
line 136): `(user_group_matrix > 0).dot((user_group_matrix > 0).T)` is
indexed by username on both axes, and its entry at `(u1, u2)` counts the
crosstab columns — groups — in which both users have a row. -/
def overlapCount (df : List (String × String)) (u1 u2 : String) : ℕ :=
  ((dfGroups df).filter fun g => decide (memberOf df u1 g) && decide (memberOf df u2 g)).length

/-- The six percentage fields computed in toxic.py lines 313-320. -/
structure PercentStats where
  prod_rw_coverage : ℚ
  prod_ro_coverage : ℚ
  nonprod_rw_coverage : ℚ
  nonprod_ro_coverage : ℚ
  users_with_cross_env_percentage : ℚ
  users_with_admin_percentage : ℚ
deriving DecidableEq, Repr

/-- One percentage of toxic.py lines 313-320: Python `/` raises
`ZeroDivisionError` on a zero denominator, and the exception propagates
(the handler of toxic.py lines 353-357 re-raises). -/
def pctRound1 (num den : ℕ) : Except String ℚ :=
  if den = 0 then Except.error "ZeroDivisionError"
  else Except.ok (pyRound1 ((num : ℚ) / (den : ℚ) * 100))

/-- Python `set.update` with a list of new elements. -/
def unionInto (s : List String) (l : List String) : List String := l.foldl insertNew s

/-- Embedding of the statistics percentages of toxic.py lines 266-320: the
four de-duplicated account sets are accumulated from the cross-environment
findings (lines 276-288; the `if` guards there only skip no-op updates
with empty lists) and the six percentages are computed in source order,
the first zero denominator raising `ZeroDivisionError`. -/
def toxicPercentStats (all_accounts : List String) (users_count : ℕ)
    (cross_env : List CrossEnvFinding) (admin_count : ℕ) :
    Except String PercentStats := do
  let allProdRw := cross_env.foldl (fun s f => unionInto s f.prod_access_rw) []
  let allProdRo := cross_env.foldl (fun s f => unionInto s f.prod_access_ro) []
  let allNonRw := cross_env.foldl (fun s f => unionInto s f.nonprod_access_rw) []
  let allNonRo := cross_env.foldl (fun s f => unionInto s f.nonprod_access_ro) []
  let a ← pctRound1 allProdRw.length (prodAccounts all_accounts).length
  let b ← pctRound1 allProdRo.length (prodAccounts all_accounts).length
  let c ← pctRound1 allNonRw.length (nonprodAccounts all_accounts).length
  let d ← pctRound1 allNonRo.length (nonprodAccounts all_accounts).length
  let e ← pctRound1 cross_env.length users_count
  let f ← pctRound1 admin_count users_count
  return ⟨a, b, c, d, e, f⟩

/-- The ordering the specification claims for resolved access rows:
by account, then by permission-set name (the user is fixed within one
resolution call). Stated from the spec's words to be compared with the
code's actual output order. -/
def specRowLe (r1 r2 : ReportRow) : Prop :=
  r1.account.toList < r2.account.toList ∨
    (r1.account = r2.account ∧ r1.permission_set_name.toList ≤ r2.permission_set_name.toList)

/-! ## Library of facts about the set and deduplication embeddings -/

theorem mem_insertNew {l : List String} {x y : String} :
    x ∈ insertNew l y ↔ x ∈ l ∨ x = y := by
  unfold insertNew
  split_ifs with h
  · constructor
    · exact Or.inl
    · rintro (hx | rfl) <;> [exact hx; exact h]
  · simp [List.mem_append]

theorem nodup_insertNew {l : List String} {y : String} (h : l.Nodup) :
    (insertNew l y).Nodup := by
  unfold insertNew
  split_ifs with hy
  · exact h
  · simpa [List.nodup_append, hy] using h

theorem mem_foldl_insertNew {l : List String} {s : List String} {x : String} :
    x ∈ l.foldl insertNew s ↔ x ∈ s ∨ x ∈ l := by
  induction l generalizing s with
  | nil => simp
  | cons a l ih =>
      rw [List.foldl_cons, ih, mem_insertNew]
      simp only [List.mem_cons]
      tauto

theorem nodup_foldl_insertNew {l : List String} {s : List String} (h : s.Nodup) :
    (l.foldl insertNew s).Nodup := by
  induction l generalizing s with
  | nil => exact h
  | cons a l ih => exact ih (nodup_insertNew h)

theorem mem_dedupFirstAux [DecidableEq α] {seen : List α} {l : List α} {x : α} :
    x ∈ dedupFirstAux seen l ↔ x ∈ l ∧ x ∉ seen := by
  induction l generalizing seen with
  | nil => simp [dedupFirstAux]
  | cons a l ih =>
      unfold dedupFirstAux
      split_ifs with ha
      · rw [ih]
        simp only [List.mem_cons]
        constructor
        · rintro ⟨hl, hs⟩; exact ⟨Or.inr hl, hs⟩
        · rintro ⟨(rfl | hl), hs⟩ <;> [exact absurd ha hs; exact ⟨hl, hs⟩]
      · simp only [List.mem_cons, ih]
        constructor
        · rintro (rfl | ⟨hl, hs⟩)
          · exact ⟨Or.inl rfl, ha⟩
          · exact ⟨Or.inr hl, fun hx => hs (Or.inr hx)⟩
        · rintro ⟨(rfl | hl), hs⟩
          · exact Or.inl rfl
          · by_cases hxa : x = a
            · exact Or.inl hxa
            · exact Or.inr ⟨hl, fun h => h.elim hxa hs⟩

theorem sublist_dedupFirstAux [DecidableEq α] (seen : List α) (l : List α) :
    (dedupFirstAux seen l).Sublist l := by
  induction l generalizing seen with
  | nil => simp [dedupFirstAux]
  | cons a l ih =>
      unfold dedupFirstAux
      split_ifs with ha
      · exact (ih seen).cons a
      · exact (ih (a :: seen)).cons₂ a

theorem nodup_dedupFirstAux [DecidableEq α] (seen : List α) (l : List α) :
    (dedupFirstAux seen l).Nodup := by
  induction l generalizing seen with
  | nil => simp [dedupFirstAux]
  | cons a l ih =>
      unfold dedupFirstAux
      split_ifs with ha
      · exact ih seen
      · refine List.nodup_cons.mpr ⟨fun hx => ?_, ih (a :: seen)⟩
        exact (mem_dedupFirstAux.mp hx).2 (List.mem_cons_self a _)

theorem mem_dedupFirst [DecidableEq α] {l : List α} {x : α} :
    x ∈ dedupFirst l ↔ x ∈ l := by
  unfold dedupFirst
  rw [mem_dedupFirstAux]
  simp

theorem sublist_dedupFirst [DecidableEq α] (l : List α) : (dedupFirst l).Sublist l :=
  sublist_dedupFirstAux [] l

theorem nodup_dedupFirst [DecidableEq α] (l : List α) : (dedupFirst l).Nodup :=
  nodup_dedupFirstAux [] l

/-! ## Bucket membership in the cross-environment analysis -/

theorem ceAddAccount_prod_mem {pA nA : List String} {t : PermType} {st : CEState}
    {a x : String} :
    (x ∈ (ceAddAccount pA nA t st a).prodRo ∨ x ∈ (ceAddAccount pA nA t st a).prodRw) ↔
      ((x ∈ st.prodRo ∨ x ∈ st.prodRw) ∨ (x = a ∧ a ∈ pA)) := by
  unfold ceAddAccount
  split_ifs with h1 h2 <;> cases t <;> simp [mem_insertNew, h1] <;> tauto

theorem ceAddAccount_non_mem {pA nA : List String} {t : PermType} {st : CEState}
    {a x : String} :
    (x ∈ (ceAddAccount pA nA t st a).nonRo ∨ x ∈ (ceAddAccount pA nA t st a).nonRw) ↔
      ((x ∈ st.nonRo ∨ x ∈ st.nonRw) ∨ (x = a ∧ a ∉ pA ∧ a ∈ nA)) := by
  unfold ceAddAccount
  split_ifs with h1 h2 <;> cases t <;> simp [mem_insertNew, h1] <;> tauto

theorem foldl_ceAddAccount_prod_mem {pA nA : List String} {t : PermType}
    {accounts : List String} {st : CEState} {x : String} :
    (x ∈ (accounts.foldl (ceAddAccount pA nA t) st).prodRo ∨
        x ∈ (accounts.foldl (ceAddAccount pA nA t) st).prodRw) ↔
      ((x ∈ st.prodRo ∨ x ∈ st.prodRw) ∨ (x ∈ accounts ∧ x ∈ pA)) := by
  induction accounts generalizing st with
  | nil => simp
  | cons a l ih =>
      rw [List.foldl_cons, ih, ceAddAccount_prod_mem]
      simp only [List.mem_cons]
      constructor
      · rintro ((hst | ⟨rfl, ha⟩) | ⟨hl, hp⟩)
        · exact Or.inl hst
        · exact Or.inr ⟨Or.inl rfl, ha⟩
        · exact Or.inr ⟨Or.inr hl, hp⟩
      · rintro (hst | ⟨(rfl | hl), hp⟩)
        · exact Or.inl (Or.inl hst)
        · exact Or.inl (Or.inr ⟨rfl, hp⟩)
        · exact Or.inr ⟨hl, hp⟩

theorem foldl_ceAddAccount_non_mem {pA nA : List String} {t : PermType}
    {accounts : List String} {st : CEState} {x : String} :
    (x ∈ (accounts.foldl (ceAddAccount pA nA t) st).nonRo ∨
        x ∈ (accounts.foldl (ceAddAccount pA nA t) st).nonRw) ↔
      ((x ∈ st.nonRo ∨ x ∈ st.nonRw) ∨ (x ∈ accounts ∧ x ∉ pA ∧ x ∈ nA)) := by
  induction accounts generalizing st with
  | nil => simp
  | cons a l ih =>
      rw [List.foldl_cons, ih, ceAddAccount_non_mem]
      simp only [List.mem_cons]
      constructor
      · rintro ((hst | ⟨rfl, ha⟩) | ⟨hl, hp⟩)
        · exact Or.inl hst
        · exact Or.inr ⟨Or.inl rfl, ha⟩
        · exact Or.inr ⟨Or.inr hl, hp⟩
      · rintro (hst | ⟨(rfl | hl), hp⟩)
        · exact Or.inl (Or.inl hst)
        · exact Or.inl (Or.inr ⟨rfl, hp⟩)
        · exact Or.inr ⟨hl, hp⟩

theorem ceStep_prod_mem {pA nA : List String} {st : CEState} {d : AccessDetail}
    {x : String} :
    (x ∈ (ceStep pA nA st d).prodRo ∨ x ∈ (ceStep pA nA st d).prodRw) ↔
      ((x ∈ st.prodRo ∨ x ∈ st.prodRw) ∨ (x ∈ d.account ∧ x ∈ pA)) := by
  unfold ceStep
  rw [foldl_ceAddAccount_prod_mem]

theorem ceStep_non_mem {pA nA : List String} {st : CEState} {d : AccessDetail}
    {x : String} :
    (x ∈ (ceStep pA nA st d).nonRo ∨ x ∈ (ceStep pA nA st d).nonRw) ↔
      ((x ∈ st.nonRo ∨ x ∈ st.nonRw) ∨ (x ∈ d.account ∧ x ∉ pA ∧ x ∈ nA)) := by
  unfold ceStep
  rw [foldl_ceAddAccount_non_mem]

theorem foldl_ceStep_prod_mem {pA nA : List String} {ds : List AccessDetail}
    {st : CEState} {x : String} :
    (x ∈ (ds.foldl (ceStep pA nA) st).prodRo ∨ x ∈ (ds.foldl (ceStep pA nA) st).prodRw) ↔
      ((x ∈ st.prodRo ∨ x ∈ st.prodRw) ∨ ∃ d ∈ ds, x ∈ d.account ∧ x ∈ pA) := by
  induction ds generalizing st with
  | nil => simp
  | cons d ds ih =>
      rw [List.foldl_cons, ih, ceStep_prod_mem]
      simp only [List.mem_cons]
      constructor
      · rintro ((hst | hd) | ⟨d₀, hd₀, hx⟩)
        · exact Or.inl hst
        · exact Or.inr ⟨d, Or.inl rfl, hd⟩
        · exact Or.inr ⟨d₀, Or.inr hd₀, hx⟩
      · rintro (hst | ⟨d₀, (rfl | hd₀), hx⟩)
        · exact Or.inl (Or.inl hst)
        · exact Or.inl (Or.inr hx)
        · exact Or.inr ⟨d₀, hd₀, hx⟩

theorem foldl_ceStep_non_mem {pA nA : List String} {ds : List AccessDetail}
    {st : CEState} {x : String} :
    (x ∈ (ds.foldl (ceStep pA nA) st).nonRo ∨ x ∈ (ds.foldl (ceStep pA nA) st).nonRw) ↔
      ((x ∈ st.nonRo ∨ x ∈ st.nonRw) ∨ ∃ d ∈ ds, x ∈ d.account ∧ x ∉ pA ∧ x ∈ nA) := by
  induction ds generalizing st with
  | nil => simp
  | cons d ds ih =>
      rw [List.foldl_cons, ih, ceStep_non_mem]
      simp only [List.mem_cons]
      constructor
      · rintro ((hst | hd) | ⟨d₀, hd₀, hx⟩)
        · exact Or.inl hst
        · exact Or.inr ⟨d, Or.inl rfl, hd⟩
        · exact Or.inr ⟨d₀, Or.inr hd₀, hx⟩
      · rintro (hst | ⟨d₀, (rfl | hd₀), hx⟩)
        · exact Or.inl (Or.inl hst)
        · exact Or.inl (Or.inr hx)
        · exact Or.inr ⟨d₀, hd₀, hx⟩

/-- Non-emptiness of a bucket pair is existence of a member. -/
theorem pair_ne_nil_iff {l₁ l₂ : List String} :
    (l₁ ≠ [] ∨ l₂ ≠ []) ↔ ∃ x, x ∈ l₁ ∨ x ∈ l₂ := by
  constructor
  · rintro (h | h)
    · obtain ⟨x, hx⟩ := List.exists_mem_of_ne_nil _ h
      exact ⟨x, Or.inl hx⟩
    · obtain ⟨x, hx⟩ := List.exists_mem_of_ne_nil _ h
      exact ⟨x, Or.inr hx⟩
  · rintro ⟨x, hx | hx⟩
    · exact Or.inl (List.ne_nil_of_mem hx)
    · exact Or.inr (List.ne_nil_of_mem hx)

/-- The flag condition of toxic.py line 167, characterised: a finding is
emitted exactly when some accessed account lies in `prod_accounts` and
some accessed account lies in the non-production bucket side. -/
theorem crossEnvUser_isSome_iff {pA nA : List String} {u : String}
    {ds : List AccessDetail} :
    (crossEnvUser pA nA u ds).isSome ↔
      ((∃ d ∈ ds, ∃ a ∈ d.account, a ∈ pA) ∧
        (∃ d ∈ ds, ∃ a ∈ d.account, a ∉ pA ∧ a ∈ nA)) := by
  unfold crossEnvUser
  simp only []
  split_ifs with h
  · simp only [Option.isSome_some, true_iff]
    obtain ⟨hp, hn⟩ := h
    constructor
    · obtain ⟨x, hx⟩ := pair_ne_nil_iff.mp hp
      rcases foldl_ceStep_prod_mem.mp hx with (hst | ⟨d, hd, hxa, hxp⟩)
      · simp at hst
      · exact ⟨d, hd, x, hxa, hxp⟩
    · obtain ⟨x, hx⟩ := pair_ne_nil_iff.mp hn
      rcases foldl_ceStep_non_mem.mp hx with (hst | ⟨d, hd, hxa, hxp⟩)
      · simp at hst
      · exact ⟨d, hd, x, hxa, hxp⟩
  · simp only [Option.isSome_none, Bool.false_eq_true, false_iff]
    rintro ⟨⟨d, hd, a, ha, hp⟩, ⟨d', hd', a', ha', hn'⟩⟩
    apply h
    constructor
    · exact pair_ne_nil_iff.mpr ⟨a, foldl_ceStep_prod_mem.mpr (Or.inr ⟨d, hd, ha, hp⟩)⟩
    · exact pair_ne_nil_iff.mpr ⟨a', foldl_ceStep_non_mem.mpr (Or.inr ⟨d', hd', ha', hn'⟩)⟩

/-! ## The distinct-account total of the extensive-access analysis -/

theorem foldl_extensiveAccum_mem {ds : List AccountAccess}
    {st : List String × List String} {x : String} :
    (x ∈ (ds.foldl extensiveAccum st).1 ∨ x ∈ (ds.foldl extensiveAccum st).2) ↔
      ((x ∈ st.1 ∨ x ∈ st.2) ∨ x ∈ ds.map AccountAccess.account) := by
  induction ds generalizing st with
  | nil => simp
  | cons d ds ih =>
      rw [List.foldl_cons, ih]
      simp only [List.map_cons, List.mem_cons]
      cases h : accessType d.permission_info <;>
        simp only [extensiveAccum, h, mem_insertNew] <;> tauto

theorem foldl_extensiveAccum_nodup {ds : List AccountAccess}
    {st : List String × List String} (h1 : st.1.Nodup) (h2 : st.2.Nodup) :
    (ds.foldl extensiveAccum st).1.Nodup ∧ (ds.foldl extensiveAccum st).2.Nodup := by
  induction ds generalizing st with
  | nil => exact ⟨h1, h2⟩
  | cons d ds ih =>
      rw [List.foldl_cons]
      cases h : accessType d.permission_info <;> simp only [extensiveAccum, h]
      · exact ih (nodup_insertNew h1) h2
      · exact ih h1 (nodup_insertNew h2)

/-- The set-union total of toxic.py line 252 counts exactly the distinct
accounts occurring in the user's access details. -/
theorem extensive_total_eq_distinct (ds : List AccountAccess) :
    (((ds.foldl extensiveAccum ([], [])).2.foldl insertNew
        (ds.foldl extensiveAccum ([], [])).1).length) =
      (dedupFirst (ds.map AccountAccess.account)).length := by
  apply List.Perm.length_eq
  have hn := @foldl_extensiveAccum_nodup ds ([], []) List.nodup_nil List.nodup_nil
  rw [List.perm_ext_iff_of_nodup (nodup_foldl_insertNew hn.1) (nodup_dedupFirst _)]
  intro a
  rw [mem_foldl_insertNew, mem_dedupFirst, foldl_extensiveAccum_mem]
  simp

/-- The report condition of toxic.py line 253, characterised over exact
rationals: the threshold comparison `total > accounts_count * 0.8` holds
exactly when `5 * total > 4 * accounts_count` over the naturals. -/
theorem threshold_iff (t c : ℕ) : ((t : ℚ) > (c : ℚ) * (4 / 5) ↔ 5 * t > 4 * c) := by
  rw [gt_iff_lt, gt_iff_lt, show (c : ℚ) * (4 / 5) = (4 * c) / 5 by ring,
    div_lt_iff₀ (by norm_num : (0 : ℚ) < 5)]
  rw [show (4 : ℚ) * c = ((4 * c : ℕ) : ℚ) by push_cast; ring,
    show (t : ℚ) * 5 = ((5 * t : ℕ) : ℚ) by push_cast; ring]
  exact Nat.cast_lt

/-! ## Error propagation helpers for the `Except` embedding -/

theorem bind_error_of_error {α β : Type} {x : Except String α}
    {f : α → Except String β} (h : ∃ e, x = Except.error e) :
    ∃ e, (x >>= f) = Except.error e := by
  obtain ⟨e, rfl⟩ := h
  exact ⟨e, rfl⟩

theorem bind_error_of_forall {α β : Type} (x : Except String α)
    {f : α → Except String β} (h : ∀ a, ∃ e, f a = Except.error e) :
    ∃ e, (x >>= f) = Except.error e := by
  cases x with
  | error e => exact ⟨e, rfl⟩
  | ok a => exact h a

/-! ## Relating the two account classifiers -/

/-- An account name the three-way classifier sends to `Other` matches no
non-production pattern of the toxic analysis either (each such pattern
contains `'prod'`, `'dev'`, `'stage'` or `'test'` as a substring), so the
toxic classifier files it under non-production via its final `else`. -/
theorem toxicClassify_of_other {name : String}
    (h : determine_environment name = Environment.Other) :
    toxicClassify name = ToxicEnv.nonprod := by
  simp only [determine_environment] at h
  split_ifs at h with h1 h2
  unfold toxicClassify
  rw [if_neg, if_neg]
  · exact fun hp => h1 (Or.inl hp)
  · rintro (hc | hc | hc | hc | hc | hc)
    · exact h1 (Or.inl ((show "prod".toList <:+: "non-prod".toList by decide).trans hc))
    · exact h1 (Or.inl ((show "prod".toList <:+: "nonprod".toList by decide).trans hc))
    · exact h1 (Or.inl ((show "prod".toList <:+: "non prod".toList by decide).trans hc))
    · exact h2 (Or.inl ((show "dev".toList <:+: "-dev".toList by decide).trans hc))
    · exact h2 (Or.inr (Or.inr (Or.inr (Or.inl hc))))
    · exact h2 (Or.inr (Or.inr (Or.inl hc)))

theorem mem_prodAccounts {all_accounts : List String} {a : String} :
    a ∈ prodAccounts all_accounts ↔ a ∈ all_accounts ∧ toxicClassify a = ToxicEnv.prod := by
  simp [prodAccounts, List.mem_filter]

theorem mem_nonprodAccounts {all_accounts : List String} {a : String} :
    a ∈ nonprodAccounts all_accounts ↔
      a ∈ all_accounts ∧ toxicClassify a = ToxicEnv.nonprod := by
  simp [nonprodAccounts, List.mem_filter]

/-- The extensive-access report condition, characterised: a finding is
emitted exactly when five times the distinct-account count strictly
exceeds four times the organisation account count. -/
theorem extensiveUser_isSome_iff (accounts_count : ℕ) (u : String)
    (ds : List AccountAccess) :
    (extensiveUser accounts_count u ds).isSome ↔
      5 * (dedupFirst (ds.map AccountAccess.account)).length > 4 * accounts_count := by
  simp only [extensiveUser]
  rw [extensive_total_eq_distinct]
  split_ifs with h
  · simp only [Option.isSome_some, true_iff]
    exact (threshold_iff _ _).mp h
  · simp only [Option.isSome_none, Bool.false_eq_true, false_iff]
    exact fun hc => h ((threshold_iff _ _).mpr hc)

/-- The coverage percentage reported in an extensive-access finding is the
distinct-account count over the organisation account count, times 100,
rounded to one decimal place. -/
theorem extensiveUser_percentage (accounts_count : ℕ) (u : String)
    (ds : List AccountAccess) (f : ExtensiveFinding)
    (h : extensiveUser accounts_count u ds = some f) :
    f.access_percentage =
      pyRound1 (((dedupFirst (ds.map AccountAccess.account)).length : ℚ) /
        (accounts_count : ℚ) * 100) := by
  revert h
  simp only [extensiveUser]
  rw [extensive_total_eq_distinct]
  split_ifs with hc
  · intro h
    injection h with h
    subst h
    rfl
  · intro h
    exact absurd h (by simp)

/-! ## Claim theorems -/

/-- C1: the derived environment classification is a pure, deterministic
function of the account name: `Production` exactly when the lowercased
name contains `'prod'` or `'production'`; `Non-Production` exactly when it
instead contains one of `'dev'`, `'development'`, `'test'`, `'stage'`,
`'staging'`; `Other` exactly when no keyword matches — and in particular
`environment("prod-billing") = Production`,
`environment("dev-sandbox") = Non-Production`,
`environment("shared-services") = Other`. Determinism across runs is
inherent: `determine_environment` is a function of the name alone. -/
theorem environment_classification_pure :
    (∀ name : String,
      (determine_environment name = Environment.Production ↔
        containsLC "prod" (lower name) ∨ containsLC "production" (lower name)) ∧
      (determine_environment name = Environment.NonProduction ↔
        ¬(containsLC "prod" (lower name) ∨ containsLC "production" (lower name)) ∧
          (containsLC "dev" (lower name) ∨ containsLC "development" (lower name) ∨
            containsLC "test" (lower name) ∨ containsLC "stage" (lower name) ∨
            containsLC "staging" (lower name))) ∧
      (determine_environment name = Environment.Other ↔
        ¬(containsLC "prod" (lower name) ∨ containsLC "production" (lower name)) ∧
          ¬(containsLC "dev" (lower name) ∨ containsLC "development" (lower name) ∨
            containsLC "test" (lower name) ∨ containsLC "stage" (lower name) ∨
            containsLC "staging" (lower name)))) ∧
    determine_environment "prod-billing" = Environment.Production ∧
    determine_environment "dev-sandbox" = Environment.NonProduction ∧
    determine_environment "shared-services" = Environment.Other := by
  refine ⟨fun name => ?_, by decide, by decide, by decide⟩
  simp only [determine_environment]
  split_ifs with h1 h2
  · refine ⟨?_, ?_, ?_⟩ <;> simp [h1]
  · refine ⟨?_, ?_, ?_⟩ <;> simp [h1, h2]
  · refine ⟨?_, ?_, ?_⟩ <;> simp [h1, h2]

/-- C5 counterexample: the claim's ReadOnly keyword set contains `'ro'`
and `'view'`, but the permission-set names `"ro"` and `"view"` — which
contain those keywords as substrings — are classified read-write by
`get_permission_type` (whose pattern list is `'readonly'`, `'read-only'`,
`'viewer'`, `'view-only'`, `'read_only'`), so the claimed
keyword-iff fails at these inputs. -/
theorem permission_type_keyword_cex :
    containsLC "ro" (lower "ro") ∧ get_permission_type "ro" = PermType.rw ∧
    containsLC "view" (lower "view") ∧ get_permission_type "view" = PermType.rw := by
  decide

/-- C5 amended: the derived access level is ReadOnly exactly when the
lowercased permission-set name contains one of `'readonly'`,
`'read-only'`, `'viewer'`, `'view-only'`, `'read_only'`; every other name
is classified ReadWrite (the default, fail-open classification). -/
theorem permission_type_keywords :
    ∀ name : String,
      (get_permission_type name = PermType.ro ↔
        containsLC "readonly" (lower name) ∨ containsLC "read-only" (lower name) ∨
          containsLC "viewer" (lower name) ∨ containsLC "view-only" (lower name) ∨
          containsLC "read_only" (lower name)) ∧
      (get_permission_type name = PermType.rw ↔
        ¬(containsLC "readonly" (lower name) ∨ containsLC "read-only" (lower name) ∨
          containsLC "viewer" (lower name) ∨ containsLC "view-only" (lower name) ∨
          containsLC "read_only" (lower name))) := by
  intro name
  simp only [get_permission_type]
  split_ifs with h
  · refine ⟨?_, ?_⟩ <;> simp [h]
  · refine ⟨?_, ?_⟩ <;> simp [h]

/-- C10 counterexample: the two classifiers disagree. `"nonprod-x"`
contains `'prod'`, so `determine_environment` calls it Production, while
the toxic analysis matches its `'nonprod'` pattern first and files it
under non-production; `"shared-services"` matches no keyword, so
`determine_environment` calls it Other while the toxic analysis files it
under non-production via its final `else`. -/
theorem classifier_equivalence_cex :
    determine_environment "nonprod-x" = Environment.Production ∧
    toxicClassify "nonprod-x" = ToxicEnv.nonprod ∧
    determine_environment "shared-services" = Environment.Other ∧
    toxicClassify "shared-services" = ToxicEnv.nonprod := by
  decide

/-- C10 amended: the two classifiers agree exactly on the account names
that match none of the toxic analysis's non-production patterns
(`'non-prod'`, `'nonprod'`, `'non prod'`, `'-dev'`, `'stage'`, `'test'`):
on such names, `determine_environment` answers Production precisely when
the toxic classifier answers production, and answers Non-Production or
Other precisely when the toxic classifier answers non-production. On
names matching such a pattern (e.g. `"nonprod-x"`) or matching no keyword
at all (e.g. `"shared-services"`) the partitions diverge. -/
theorem classifiers_agree_off_nonprod_patterns :
    ∀ name : String, ¬ toxicNonprodPattern name →
      ((determine_environment name = Environment.Production ↔
          toxicClassify name = ToxicEnv.prod) ∧
        (determine_environment name ≠ Environment.Production ↔
          toxicClassify name = ToxicEnv.nonprod)) := by
  intro name h
  unfold toxicClassify
  rw [if_neg h]
  simp only [determine_environment]
  by_cases hp : containsLC "prod" (lower name)
  · rw [if_pos (Or.inl hp), if_pos hp]
    exact ⟨by simp, by simp⟩
  · have hp2 : ¬ containsLC "production" (lower name) := fun hc =>
      hp ((show "prod".toList <:+: "production".toList by decide).trans hc)
    rw [if_neg (fun hor => hor.elim hp hp2), if_neg hp]
    constructor
    · split_ifs <;> simp
    · split_ifs <;> simp

/-- C10 witness: the agreement theorem applied to `"prod-billing"`,
which matches no non-production pattern. -/
theorem classifiers_agree_off_nonprod_patterns_witness :
    (determine_environment "prod-billing" = Environment.Production ↔
        toxicClassify "prod-billing" = ToxicEnv.prod) ∧
      (determine_environment "prod-billing" ≠ Environment.Production ↔
        toxicClassify "prod-billing" = ToxicEnv.nonprod) :=
  classifiers_agree_off_nonprod_patterns "prod-billing" (by decide)

/-- C2: provided every account name in the user's access details occurs in
the organisation account list (as graph data always does), the
cross-environment analysis flags the user exactly when the resolved
grants touch at least one account the analysis classifies as production
and at least one it classifies as non-production, regardless of access
level; and the user with grants (GroupA, "prod-x", read-write permission
set) and (GroupB, "dev-y", read-only permission set) appears in the
findings with `prod_access_rw = ["prod-x"]` and
`nonprod_access_ro = ["dev-y"]`. -/
theorem cross_env_flag_correct :
    (∀ (all_accounts : List String) (u : String) (ds : List AccessDetail),
      (∀ d ∈ ds, ∀ a ∈ d.account, a ∈ all_accounts) →
      ((crossEnvUser (prodAccounts all_accounts) (nonprodAccounts all_accounts) u ds).isSome ↔
        ((∃ d ∈ ds, ∃ a ∈ d.account, toxicClassify a = ToxicEnv.prod) ∧
          (∃ d ∈ ds, ∃ a ∈ d.account, toxicClassify a = ToxicEnv.nonprod)))) ∧
    crossEnvUser (prodAccounts ["prod-x", "dev-y"]) (nonprodAccounts ["prod-x", "dev-y"])
        "alice"
        [⟨["GroupA"], ["prod-x"], ["AdminAccess"]⟩, ⟨["GroupB"], ["dev-y"], ["ReadOnlyAccess"]⟩] =
      some ⟨"alice", [], ["prod-x"], ["dev-y"], [], ["GroupA", "GroupB"]⟩ := by
  constructor
  · intro allA u ds hsub
    rw [crossEnvUser_isSome_iff]
    constructor
    · rintro ⟨⟨d, hd, a, ha, hp⟩, ⟨d', hd', a', ha', _, hn⟩⟩
      exact ⟨⟨d, hd, a, ha, (mem_prodAccounts.mp hp).2⟩,
        ⟨d', hd', a', ha', (mem_nonprodAccounts.mp hn).2⟩⟩
    · rintro ⟨⟨d, hd, a, ha, hp⟩, ⟨d', hd', a', ha', hn⟩⟩
      refine ⟨⟨d, hd, a, ha, mem_prodAccounts.mpr ⟨hsub d hd a ha, hp⟩⟩,
        ⟨d', hd', a', ha', fun hmem => ?_,
          mem_nonprodAccounts.mpr ⟨hsub d' hd' a' ha', hn⟩⟩⟩
      have hcl := (mem_prodAccounts.mp hmem).2
      rw [hn] at hcl
      exact absurd hcl (by decide)
  · decide

/-- C2 witness: the flag-iff applied to the two-grant example, both
existence hypotheses discharged concretely. -/
theorem cross_env_flag_correct_witness :
    (crossEnvUser (prodAccounts ["prod-x", "dev-y"]) (nonprodAccounts ["prod-x", "dev-y"])
      "alice"
      [⟨["GroupA"], ["prod-x"], ["AdminAccess"]⟩,
        ⟨["GroupB"], ["dev-y"], ["ReadOnlyAccess"]⟩]).isSome :=
  (cross_env_flag_correct.1 ["prod-x", "dev-y"] "alice" _ (by decide)).mpr (by decide)

/-- C3 counterexample: `"shared-services"` is classified Other by the
environment classifier, yet the cross-environment analysis places it in
the non-production bucket: a user touching only `"prod-a"` and the
Other-classified `"shared-services"` is flagged, with
`"shared-services"` supplying the whole non-production side — so an
Other account is not excluded from the comparison. -/
theorem other_accounts_excluded_cex :
    determine_environment "shared-services" = Environment.Other ∧
    crossEnvUser (prodAccounts ["prod-a", "shared-services"])
        (nonprodAccounts ["prod-a", "shared-services"]) "bob"
        [⟨["G1"], ["prod-a"], ["Admin"]⟩, ⟨["G2"], ["shared-services"], ["Admin"]⟩] =
      some ⟨"bob", [], ["prod-a"], [], ["shared-services"], ["G1", "G2"]⟩ := by
  decide

/-- C3 amended: an account the environment classifier sends to Other is
placed in the analysis's non-production list (the fallback `else` of
toxic.py line 113), not excluded: it can supply the non-production side
of a cross-environment flag. What remains true is that a footprint
consisting only of Other-classified accounts is never flagged, because
the production bucket stays empty. -/
theorem other_accounts_nonprod_bucket :
    (∀ name : String, determine_environment name = Environment.Other →
      toxicClassify name = ToxicEnv.nonprod) ∧
    (∀ (all_accounts : List String) (u : String) (ds : List AccessDetail),
      (∀ d ∈ ds, ∀ a ∈ d.account, determine_environment a = Environment.Other) →
      crossEnvUser (prodAccounts all_accounts) (nonprodAccounts all_accounts) u ds = none) := by
  refine ⟨fun name h => toxicClassify_of_other h, ?_⟩
  intro allA u ds hother
  apply Option.not_isSome_iff_eq_none.mp
  rw [crossEnvUser_isSome_iff]
  rintro ⟨⟨d, hd, a, ha, hp⟩, -⟩
  have h1 := toxicClassify_of_other (hother d hd a ha)
  have h2 := (mem_prodAccounts.mp hp).2
  rw [h1] at h2
  exact absurd h2 (by decide)

/-- C3 witness: both parts applied to `"shared-services"` and to a user
whose only account is `"shared-services"`. -/
theorem other_accounts_nonprod_bucket_witness :
    toxicClassify "shared-services" = ToxicEnv.nonprod ∧
    crossEnvUser (prodAccounts ["shared-services"]) (nonprodAccounts ["shared-services"])
        "bob" [⟨["G"], ["shared-services"], ["P"]⟩] = none :=
  ⟨other_accounts_nonprod_bucket.1 "shared-services" (by decide),
    other_accounts_nonprod_bucket.2 ["shared-services"] "bob" _ (by decide)⟩

/-- C4: the extensive-access analysis flags a user exactly when the number
of distinct accounts the grants touch strictly exceeds 0.8 times the
organisation account count (over exact rationals, `total > count * 4/5`,
equivalently `5 * total > 4 * count`); with 10 accounts a user touching
exactly 8 is not flagged and a user touching 9 is; and the reported
coverage percentage is the coverage fraction times 100 rounded to one
decimal place. -/
theorem extensive_access_threshold :
    (∀ (accounts_count : ℕ) (u : String) (ds : List AccountAccess),
      ((extensiveUser accounts_count u ds).isSome ↔
        5 * (dedupFirst (ds.map AccountAccess.account)).length > 4 * accounts_count)) ∧
    (∀ (u : String) (ds : List AccountAccess),
      (dedupFirst (ds.map AccountAccess.account)).length = 8 →
      extensiveUser 10 u ds = none) ∧
    (∀ (u : String) (ds : List AccountAccess),
      (dedupFirst (ds.map AccountAccess.account)).length = 9 →
      (extensiveUser 10 u ds).isSome) ∧
    (∀ (accounts_count : ℕ) (u : String) (ds : List AccountAccess) (f : ExtensiveFinding),
      extensiveUser accounts_count u ds = some f →
      f.access_percentage =
        pyRound1 (((dedupFirst (ds.map AccountAccess.account)).length : ℚ) /
          (accounts_count : ℚ) * 100)) := by
  refine ⟨extensiveUser_isSome_iff, fun u ds h => ?_, fun u ds h => ?_,
    extensiveUser_percentage⟩
  · apply Option.not_isSome_iff_eq_none.mp
    rw [extensiveUser_isSome_iff, h]
    decide
  · rw [extensiveUser_isSome_iff, h]
    decide

/-- The 8-account and 9-account example footprints for the boundary. -/
def eightAccounts : List AccountAccess :=
  [⟨"a1", []⟩, ⟨"a2", []⟩, ⟨"a3", []⟩, ⟨"a4", []⟩, ⟨"a5", []⟩, ⟨"a6", []⟩, ⟨"a7", []⟩, ⟨"a8", []⟩]

/-- The 9-account footprint. -/
def nineAccounts : List AccountAccess := eightAccounts ++ [⟨"a9", []⟩]

/-- C4 witness: the boundary and percentage statements applied at the
concrete 8- and 9-account footprints with 10 total accounts. -/
theorem extensive_access_threshold_witness :
    extensiveUser 10 "u" eightAccounts = none ∧
    (extensiveUser 10 "u" nineAccounts).isSome ∧
    (∃ f, extensiveUser 10 "u" nineAccounts = some f ∧
      f.access_percentage = pyRound1 ((9 : ℚ) / 10 * 100)) := by
  refine ⟨extensive_access_threshold.2.1 "u" eightAccounts (by decide),
    extensive_access_threshold.2.2.1 "u" nineAccounts (by decide), ?_⟩
  obtain ⟨f, hf⟩ := Option.isSome_iff_exists.mp
    (extensive_access_threshold.2.2.1 "u" nineAccounts (by decide))
  refine ⟨f, hf, ?_⟩
  rw [extensive_access_threshold.2.2.2 10 "u" nineAccounts f hf,
    show (dedupFirst (nineAccounts.map AccountAccess.account)).length = 9 from by decide]
  norm_num

/-- C6 counterexample: a failed graph query is not surfaced — the
`except` handler of build_report.py lines 103-106 swallows the error and
`get_access_data` returns a successful empty result instead of any typed
failure. -/
theorem resolution_error_surfaced_cex :
    get_access_data (Except.error "graph connectivity failure") =
      Except.ok ([] : List ReportRow) := rfl

/-- C6 amended: if the graph store raises a connectivity or query error
during access resolution, `get_access_data` catches it and returns an
empty result set; `get_org_access_data` does the same for a failed user
listing; neither function ever surfaces an error value to the caller, and
no typed `GraphQueryFailure` exists in the code. -/
theorem resolution_error_swallowed :
    (∀ e : String, get_access_data (Except.error e) = Except.ok []) ∧
    (∀ q : Except String (List RawAccess), ∃ rows, get_access_data q = Except.ok rows) ∧
    (∀ (e : String) (fetch : String → Except String (List RawAccess)),
      get_org_access_data (Except.error e) fetch = Except.ok []) ∧
    (∀ (uq : Except String (List String)) (fetch : String → Except String (List RawAccess)),
      ∃ rows, get_org_access_data uq fetch = Except.ok rows) := by
  refine ⟨fun e => rfl, fun q => ⟨_, rfl⟩, fun e fetch => rfl, fun uq fetch => ?_⟩
  cases uq <;> exact ⟨_, rfl⟩

/-- C7 counterexample: with a single account classified non-production,
`prod_accounts` is empty and the first coverage percentage of toxic.py
line 314 divides by zero; the resulting `ZeroDivisionError` propagates
(the handler of lines 353-357 re-raises), so the run fails instead of
reporting the percentage as undefined or zero. -/
theorem zero_denominator_cex :
    toxicPercentStats ["dev-a"] 1 [] 0 = Except.error "ZeroDivisionError" := rfl

/-- C7 amended: a zero denominator in the toxic-analysis percentage
computations — no production-classified accounts, no
non-production-classified accounts, or zero users — raises
`ZeroDivisionError`, which aborts the analysis run; the affected
percentage is not reported as undefined or zero. (Only
`analyze_access_overlap` in build_report.py catches its exceptions
locally, returning `None` rather than a zero percentage.) -/
theorem zero_population_aborts :
    ∀ (all_accounts : List String) (users_count : ℕ)
      (cross_env : List CrossEnvFinding) (admin_count : ℕ),
      (prodAccounts all_accounts = [] ∨ nonprodAccounts all_accounts = [] ∨
          users_count = 0) →
      ∃ e, toxicPercentStats all_accounts users_count cross_env admin_count =
        Except.error e := by
  intro allA uc ce ac h
  simp only [toxicPercentStats]
  rcases h with h | h | h
  · exact bind_error_of_error ⟨"ZeroDivisionError", by simp [pctRound1, h]⟩
  · apply bind_error_of_forall; intro a
    apply bind_error_of_forall; intro b
    exact bind_error_of_error ⟨"ZeroDivisionError", by simp [pctRound1, h]⟩
  · apply bind_error_of_forall; intro a
    apply bind_error_of_forall; intro b
    apply bind_error_of_forall; intro c
    apply bind_error_of_forall; intro d
    exact bind_error_of_error ⟨"ZeroDivisionError", by simp [pctRound1, h]⟩

/-- C7 witness: the abort theorem applied to a one-account organisation
with no production-classified account. -/
theorem zero_population_aborts_witness :
    ∃ e, toxicPercentStats ["dev-a"] 1 [] 0 = Except.error e :=
  zero_population_aborts ["dev-a"] 1 [] 0 (Or.inl (by decide))

/-- C8 counterexample: the overlap matrix is indexed by username, not by
group. In a frame where users `"u1"` and `"u2"` are both members of group
`"g"`, the matrix labels are the usernames, the group `"g"` has two
members, yet the matrix evaluated at `("g", "g")` is 0, not the member
count 2 the claim requires of `overlap(G, G)`. -/
theorem overlap_group_diagonal_cex :
    dfUsers [("u1", "g"), ("u2", "g")] = ["u1", "u2"] ∧
    (dedupFirst ((([("u1", "g"), ("u2", "g")] : List (String × String)).filter
        fun r => r.2 == "g").map Prod.fst)).length = 2 ∧
    overlapCount [("u1", "g"), ("u2", "g")] "g" "g" = 0 := by
  decide

/-- C8 amended: the matrix produced by `analyze_access_overlap` is a
user-by-user matrix: `overlap(U1, U2)` counts the groups shared by users
U1 and U2. It is symmetric, and the diagonal entry `overlap(U, U)` equals
the number of distinct groups U belongs to — not a group's member
count. -/
theorem overlap_matrix_user_indexed :
    ∀ (df : List (String × String)) (u1 u2 : String),
      overlapCount df u1 u2 = overlapCount df u2 u1 ∧
      overlapCount df u1 u1 =
        ((dfGroups df).filter fun g => decide (memberOf df u1 g)).length := by
  intro df u1 u2
  constructor
  · unfold overlapCount
    congr 1
    apply List.filter_congr
    intro g _
    exact Bool.and_comm _ _
  · unfold overlapCount
    congr 1
    apply List.filter_congr
    intro g _
    exact Bool.and_self _

/-- C9 counterexample: access resolution performs no sorting. When the
graph traversal returns the `"prod-b"` row before the `"prod-a"` row,
`get_access_data` keeps that order, which violates the claimed stable
sort by user, account, then permission-set name. -/
theorem access_rows_sorted_cex :
    get_access_rows (Except.ok [⟨"prod-b", "a/ps-x", "g"⟩, ⟨"prod-a", "a/ps-x", "g"⟩]) =
      [⟨"prod-b", "a/ps-x", "X", "g", Environment.Production⟩,
        ⟨"prod-a", "a/ps-x", "X", "g", Environment.Production⟩] ∧
    ¬ (get_access_rows
        (Except.ok [⟨"prod-b", "a/ps-x", "g"⟩, ⟨"prod-a", "a/ps-x", "g"⟩])).Sorted specRowLe := by
  have hrows : get_access_rows
      (Except.ok [⟨"prod-b", "a/ps-x", "g"⟩, ⟨"prod-a", "a/ps-x", "g"⟩]) =
      [⟨"prod-b", "a/ps-x", "X", "g", Environment.Production⟩,
        ⟨"prod-a", "a/ps-x", "X", "g", Environment.Production⟩] := by decide
  refine ⟨hrows, ?_⟩
  rw [hrows]
  intro hs
  have h := List.rel_of_sorted_cons hs _ (List.mem_singleton.mpr rfl)
  simp only [specRowLe] at h
  rcases h with hlt | ⟨heq, -⟩
  · exact absurd hlt (by decide)
  · exact absurd heq (by decide)

/-- C9 amended: resolving access is a pure function of the traversal
result (identical snapshots give identical sequences), and the output
order is the traversal's row order with duplicates dropped keeping first
occurrences — no sort by user, account and permission-set name is
applied. -/
theorem access_rows_traversal_order :
    ∀ m : List RawAccess,
      (get_access_rows (Except.ok m)).Sublist (m.map toReportRow) ∧
      (get_access_rows (Except.ok m)).Nodup :=
  fun _ => ⟨sublist_dedupFirst _, nodup_dedupFirst _⟩

end ReportSh
